import Mathlib

/-!
# Video plugin (server/main.go): embedding and verified properties

The hooks of `server/main.go` are embedded as pure functions over explicit state.

* A Go string is modelled by the list of its Unicode code points (`GoString`); the
  inputs are taken to be valid UTF-8, so byte-level scans for the ASCII bytes `.`, `,`
  and the path separator coincide with rune-level scans.
* The Go standard library is not part of the repository. Its case table
  (`unicode.ToLower`), the platform's path-separator test and the MIME table are
  fields of `StdLib`; `strings.Split`, `strings.TrimSpace`, `filepath.Ext` and
  `io.Copy` are written out after their library definitions.
* Go `int` and `int64` are 64-bit two's complement: integers are `Int`, wrapped
  explicitly where the program multiplies.
-/

set_option autoImplicit false

namespace VideoPlugin

/-- A Go string as the list of its code points. -/
abbrev GoString := List Char

/-- A byte sequence. -/
abbrev Bytes := List Nat

/-- The parts of the Go runtime library whose tables are not in the repository. -/
structure StdLib where
  /-- The rune mapping `unicode.ToLower`. -/
  toLowerRune : Char → Char
  /-- The test `os.IsPathSeparator`. -/
  isPathSeparator : Char → Bool
  /-- The lookup `mime.TypeByExtension`, which reads the tables of the operating system. -/
  TypeByExtension : GoString → GoString

/-- Lowercasing of an ASCII letter, the restriction of `unicode.ToLower` to ASCII. -/
def asciiLowerRune (c : Char) : Char :=
  if 65 ≤ c.toNat ∧ c.toNat ≤ 90 then Char.ofNat (c.toNat + 32) else c

/-- The built-in MIME table of Go (`builtinTypesLower` in `mime/type.go`). -/
def builtinTypes : List (GoString × GoString) :=
  [(".avif".toList, "image/avif".toList),
   (".css".toList, "text/css; charset=utf-8".toList),
   (".gif".toList, "image/gif".toList),
   (".htm".toList, "text/html; charset=utf-8".toList),
   (".html".toList, "text/html; charset=utf-8".toList),
   (".jpeg".toList, "image/jpeg".toList),
   (".jpg".toList, "image/jpeg".toList),
   (".js".toList, "text/javascript; charset=utf-8".toList),
   (".json".toList, "application/json".toList),
   (".mjs".toList, "text/javascript; charset=utf-8".toList),
   (".pdf".toList, "application/pdf".toList),
   (".png".toList, "image/png".toList),
   (".svg".toList, "image/svg+xml".toList),
   (".wasm".toList, "application/wasm".toList),
   (".webp".toList, "image/webp".toList),
   (".xml".toList, "text/xml; charset=utf-8".toList)]

/-- The lookup `mime.TypeByExtension` on a host that has only the built-in table: the type of
the lowercased extension, empty when the table has none. -/
def builtinTypeByExtension (ext : GoString) : GoString :=
  match builtinTypes.lookup (ext.map asciiLowerRune) with
  | some mimeType => mimeType
  | none => []

/-- A Unix host on ASCII input, with only the built-in MIME table. -/
def unixLib : StdLib where
  toLowerRune := asciiLowerRune
  isPathSeparator := fun c => c == '/'
  TypeByExtension := builtinTypeByExtension

/-- Go `unicode.IsSpace`: the code points with the White_Space property. -/
def isSpace (c : Char) : Bool :=
  let n := c.toNat
  n == 9 || n == 10 || n == 11 || n == 12 || n == 13 || n == 32 || n == 0x85 || n == 0xA0
    || n == 0x1680 || (0x2000 ≤ n && n ≤ 0x200A) || n == 0x2028 || n == 0x2029
    || n == 0x202F || n == 0x205F || n == 0x3000

namespace strings

/-- Go `strings.ToLower`: every rune is mapped by `unicode.ToLower`. -/
def ToLower (L : StdLib) (s : GoString) : GoString :=
  s.map L.toLowerRune

/-- Go `strings.Split(s, sep)` for a separator of one rune: the pieces between the
occurrences of `sep`; a string with `n` separators has `n + 1` pieces. -/
def Split : GoString → Char → List GoString
  | [], _ => [[]]
  | c :: cs, sep =>
    if c = sep then [] :: Split cs sep
    else
      match Split cs sep with
      | [] => [[c]]
      | piece :: pieces => (c :: piece) :: pieces

/-- Remove the leading runes that are white space. -/
def trimLeft : GoString → GoString
  | [] => []
  | c :: cs => if isSpace c then trimLeft cs else c :: cs

/-- Go `strings.TrimSpace`: leading and trailing white space removed. -/
def TrimSpace (s : GoString) : GoString :=
  (trimLeft (trimLeft s).reverse).reverse

end strings

namespace filepath

/-- The loop of Go `filepath.Ext`, scanning from the last rune backwards: `rev` holds
`path[0..i]` reversed and `acc` is `path[i+1:]`. -/
def Ext.scan (L : StdLib) : GoString → GoString → GoString
  | [], _ => []
  | c :: rest, acc =>
    if L.isPathSeparator c then []
    else if c = '.' then c :: acc
    else Ext.scan L rest (c :: acc)

/-- Go `filepath.Ext`: the suffix beginning at the last dot of the last path element,
empty when there is no such dot. -/
def Ext (L : StdLib) (path : GoString) : GoString :=
  Ext.scan L path.reverse []

end filepath

/-- The plugin settings, `type configuration struct`. -/
structure configuration where
  EnableVideoPreview : Bool
  SupportedFormats : GoString
  MaxFileSize : Int
  PreviewDuration : Int

/-- The value of `var config configuration` before anything is loaded into it. -/
def configuration.zero : configuration :=
  ⟨false, [], 0, 0⟩

/-- The fields of `model.FileInfo` that the plugin reads or writes. -/
structure FileInfo where
  Id : GoString
  Name : GoString
  Extension : GoString
  Size : Int
  MimeType : GoString
deriving DecidableEq

/-- The host interface `p.API`, by the results of the calls the plugin makes; `none` is an
error result. -/
structure PluginAPI where
  LoadPluginConfiguration : Option configuration
  GetFileInfo : GoString → Option FileInfo
  GetFile : GoString → Option Bytes
  UploadFile : Bytes → GoString → GoString → Option FileInfo

/-- The plugin value, `type Plugin struct`. -/
structure Plugin where
  API : PluginAPI

/-- `getConfiguration`: the loaded configuration, or the zero value when loading fails (the
error is only logged). -/
def getConfiguration (p : Plugin) : configuration :=
  match p.API.LoadPluginConfiguration with
  | some config => config
  | none => configuration.zero

/-- The `for _, format := range formats` loop of `isSupportedVideoFormat`. -/
def isSupportedVideoFormat.loop (ext : GoString) : List GoString → Bool
  | [] => false
  | format :: rest =>
    if strings.TrimSpace format = ext then true
    else isSupportedVideoFormat.loop ext rest

/-- `isSupportedVideoFormat` (main.go 54-68). -/
def isSupportedVideoFormat (L : StdLib) (p : Plugin) (filename : GoString) : Bool :=
  let config := getConfiguration p
  let ext := strings.ToLower L (filepath.Ext L filename)
  let ext := if ext ≠ [] ∧ ext.head? = some '.' then ext.drop 1 else ext
  let formats := strings.Split (strings.ToLower L config.SupportedFormats) ','
  isSupportedVideoFormat.loop ext formats


/-- Go `int64` arithmetic: the two's-complement value of an integer result. -/
def wrapInt64 (x : Int) : Int :=
  (x + 9223372036854775808) % 18446744073709551616 - 9223372036854775808

/-- The Go slice expression `s[1:]`; `none` is the run-time panic "slice bounds out of
range" raised when `s` is empty. -/
def sliceFrom1 : GoString → Option GoString
  | [] => none
  | _ :: rest => some rest

/-- An `io.Reader`: the bytes it yields, and whether the stream then ends in an error
instead of EOF. -/
structure Reader where
  data : Bytes
  fails : Bool

/-- An `io.Writer` as an explicit sink: the bytes received so far, and the number of further
bytes it accepts before a write fails (`none`: it never fails). -/
structure Writer where
  written : Bytes
  capacity : Option Nat

namespace io

/-- Go `io.Copy(dst, src)`: the bytes of `src` are appended to `dst` until EOF or the first
error; the result is the sink and whether an error is returned. -/
def Copy (dst : Writer) (src : Reader) : Writer × Bool :=
  match dst.capacity with
  | none => (⟨dst.written ++ src.data, none⟩, src.fails)
  | some k =>
    if src.data.length ≤ k then
      (⟨dst.written ++ src.data, some (k - src.data.length)⟩, src.fails)
    else (⟨dst.written ++ src.data.take k, some 0⟩, true)

end io

/-- What a call of `FileWillBeUploaded` leaves behind: the struct behind the `info` pointer
(which is also the pointer returned), the output sink, and the returned rejection reason;
`ret = none` when the call ends in a run-time panic instead of returning. -/
structure UploadResult where
  info : FileInfo
  output : Writer
  ret : Option GoString

/-- `FileWillBeUploaded` (main.go 71-95). -/
def FileWillBeUploaded (L : StdLib) (p : Plugin) (info : FileInfo) (file : Reader)
    (output : Writer) : UploadResult :=
  if !isSupportedVideoFormat L p info.Name then ⟨info, output, some []⟩
  else
    let config := getConfiguration p
    if info.Size > wrapInt64 (config.MaxFileSize * 1024 * 1024) then
      ⟨info, output, some "Размер видео файла превышает максимально допустимый".toList⟩
    else
      let copied := io.Copy output file
      if copied.2 then ⟨info, copied.1, some "Ошибка при копировании файла".toList⟩
      else
        let info := { info with MimeType := L.TypeByExtension (filepath.Ext L info.Name) }
        if info.MimeType = [] then
          match sliceFrom1 (filepath.Ext L info.Name) with
          | none => ⟨info, copied.1, none⟩
          | some rest =>
            ⟨{ info with MimeType := "video/".toList ++ strings.ToLower L rest }, copied.1, some []⟩
        else ⟨info, copied.1, some []⟩

/-- A value stored in `post.Props` (`interface{}`). -/
inductive PropValue where
  | bool (b : Bool)
  | text (s : GoString)
  | number (n : Int)
deriving DecidableEq

/-- The fields of `model.Post` that matter here. `Props` is `none` for a nil map. -/
structure Post where
  Id : GoString
  UserId : GoString
  ChannelId : GoString
  Message : GoString
  FileIds : List GoString
  Props : Option (GoString → Option PropValue)

/-- Reading `post.Props[key]`; a nil map has no entries. -/
def Post.prop (post : Post) (key : GoString) : Option PropValue :=
  match post.Props with
  | none => none
  | some m => m key

/-- The assignment `m[key] = value` on a map. -/
def mapSet (m : GoString → Option PropValue) (key : GoString) (value : PropValue) :
    GoString → Option PropValue :=
  fun k => if k = key then some value else m k

/-- One `go p.generateVideoPreview(fileId, fileInfo)` statement. -/
structure Job where
  fileId : GoString
  fileInfo : FileInfo
deriving DecidableEq

/-- The `for _, fileId := range post.FileIds` loop of `MessageWillBePosted`, carrying
`hasVideo` and the jobs launched so far. -/
def MessageWillBePosted.loop (L : StdLib) (p : Plugin) :
    List GoString → Bool → List Job → Bool × List Job
  | [], hasVideo, jobs => (hasVideo, jobs)
  | fileId :: rest, hasVideo, jobs =>
    match p.API.GetFileInfo fileId with
    | none => MessageWillBePosted.loop L p rest hasVideo jobs
    | some fileInfo =>
      if isSupportedVideoFormat L p fileInfo.Name then
        MessageWillBePosted.loop L p rest true (jobs ++ [⟨fileId, fileInfo⟩])
      else MessageWillBePosted.loop L p rest hasVideo jobs

/-- The outcome of `MessageWillBePosted`: the returned post, the rejection reason and the
preview jobs launched, in launch order. -/
structure PostResult where
  post : Post
  reason : GoString
  jobs : List Job

/-- `MessageWillBePosted` (main.go 98-132). -/
def MessageWillBePosted (L : StdLib) (p : Plugin) (post : Post) : PostResult :=
  if post.FileIds.length = 0 then ⟨post, [], []⟩
  else
    let config := getConfiguration p
    if !config.EnableVideoPreview then ⟨post, [], []⟩
    else
      let r := MessageWillBePosted.loop L p post.FileIds false []
      if r.1 then
        let props : GoString → Option PropValue :=
          match post.Props with
          | none => fun _ => none
          | some m => m
        ⟨{ post with Props := some (mapSet props "has_video".toList (PropValue.bool true)) },
          [], r.2⟩
      else ⟨post, [], r.2⟩

/-- The local filesystem: the content of each path that exists. -/
abbrev FS := GoString → Option Bytes

/-- The content of `path` replaced. -/
def FS.write (fs : FS) (path : GoString) (data : Bytes) : FS :=
  fun q => if q = path then some data else fs q

/-- The file at `path` removed. -/
def FS.remove (fs : FS) (path : GoString) : FS :=
  fun q => if q = path then none else fs q

/-- The operating system as the preview job sees it. -/
structure OS where
  /-- The result of `os.TempDir()`. -/
  TempDir : GoString
  /-- The function `filepath.Join` of two elements. -/
  Join : GoString → GoString → GoString
  /-- Whether `os.Create` of the path returns an error. -/
  createFails : GoString → Bool
  /-- The bytes a created file accepts before a write fails (`none`: no limit). -/
  writeCapacity : Option Nat
  /-- The call `exec.Command(argv...).Run()`: the filesystem the process leaves, and whether
  it was started and exited with status zero. -/
  Run : List GoString → FS → FS × Bool
  /-- Whether `os.ReadFile` of an existing path returns an error. -/
  readFails : GoString → Bool

/-- The calls a preview job makes to the host and to the operating system. -/
inductive Event where
  | LoadPluginConfiguration
  | GetFile (fileId : GoString)
  | UploadFile (data : Bytes) (channelId : GoString) (filename : GoString)
  | LogError (msg : GoString)
  | LogInfo (msg : GoString)
  | Create (path : GoString)
  | Write (path : GoString) (data : Bytes)
  | Close (path : GoString)
  | Remove (path : GoString)
  | Run (argv : List GoString)
  | ReadFile (path : GoString)
deriving DecidableEq

/-- The state a preview job acts on: the filesystem, and the calls made so far. -/
structure World where
  fs : FS
  trace : List Event

/-- One more call recorded. -/
def World.log (w : World) (e : Event) : World :=
  ⟨w.fs, w.trace ++ [e]⟩

/-- A `defer` statement of `generateVideoPreview`. -/
inductive Deferred where
  | Remove (path : GoString)
  | Close (path : GoString)

/-- The deferred calls run at a `return`, the most recently deferred (the head) first. -/
def runDeferred : List Deferred → World → World
  | [], w => w
  | Deferred.Remove path :: rest, w =>
    runDeferred rest ⟨w.fs.remove path, w.trace ++ [Event.Remove path]⟩
  | Deferred.Close path :: rest, w =>
    runDeferred rest (w.log (Event.Close path))

/-- The calls made by `getConfiguration`. -/
def getConfiguration.events (p : Plugin) : List Event :=
  match p.API.LoadPluginConfiguration with
  | some _ => [Event.LoadPluginConfiguration]
  | none => [Event.LoadPluginConfiguration,
      Event.LogError "Ошибка загрузки конфигурации".toList]

/-- Go `fmt.Sprintf("%d", n)`. -/
def formatInt (n : Int) : GoString :=
  (toString n).toList

/-- Go `os.ReadFile`. -/
def readFile (os : OS) (fs : FS) (path : GoString) : Option Bytes :=
  match fs path with
  | none => none
  | some data => if os.readFails path then none else some data

/-- `generateVideoPreview` (main.go 135-199). -/
def generateVideoPreview (os : OS) (p : Plugin) (fileId : GoString) (fileInfo : FileInfo)
    (w : World) : World :=
  let config := getConfiguration p
  let w : World := ⟨w.fs, w.trace ++ getConfiguration.events p⟩
  let w := w.log (Event.GetFile fileId)
  match p.API.GetFile fileId with
  | none => w.log (Event.LogError "Ошибка получения файла".toList)
  | some fileReader =>
    let tmpDir := os.TempDir
    let inputFile := os.Join tmpDir ("video_".toList ++ fileId ++ "_".toList ++ fileInfo.Name)
    let outputFile := os.Join tmpDir ("preview_".toList ++ fileId ++ ".jpg".toList)
    let w := w.log (Event.Create inputFile)
    if os.createFails inputFile then
      w.log (Event.LogError "Ошибка создания временного файла".toList)
    else
      let w : World := ⟨w.fs.write inputFile [], w.trace⟩
      let deferred := [Deferred.Close inputFile, Deferred.Remove inputFile]
      let copied := io.Copy ⟨[], os.writeCapacity⟩ ⟨fileReader, false⟩
      let w : World :=
        ⟨w.fs.write inputFile copied.1.written,
          w.trace ++ [Event.Write inputFile copied.1.written]⟩
      if copied.2 then
        runDeferred deferred (w.log (Event.LogError "Ошибка записи во временный файл".toList))
      else
        let argv := ["ffmpeg".toList, "-i".toList, inputFile, "-ss".toList,
          formatInt config.PreviewDuration, "-vframes".toList, "1".toList, "-q:v".toList,
          "2".toList, "-y".toList, outputFile]
        let ran := os.Run argv w.fs
        let w : World := ⟨ran.1, w.trace ++ [Event.Run argv]⟩
        if !ran.2 then
          runDeferred deferred (w.log (Event.LogError "Ошибка генерации превью".toList))
        else
          let deferred := Deferred.Remove outputFile :: deferred
          let w := w.log (Event.ReadFile outputFile)
          match readFile os w.fs outputFile with
          | none =>
            runDeferred deferred (w.log (Event.LogError "Ошибка чтения файла превью".toList))
          | some previewData =>
            let displayName := "preview_".toList ++ fileInfo.Name ++ ".jpg".toList
            let storedName := "preview_".toList ++ fileId ++ ".jpg".toList
            let w := w.log (Event.UploadFile previewData displayName storedName)
            match p.API.UploadFile previewData displayName storedName with
            | none =>
              runDeferred deferred (w.log (Event.LogError "Ошибка сохранения превью".toList))
            | some _ =>
              runDeferred deferred (w.log (Event.LogInfo "Превью сгенерировано".toList))

/-! ## Eligibility: `isSupportedVideoFormat` -/

/-- The extension key in the words of the specification: the extension of the file name,
lowercased, with its single leading dot removed. -/
def spec_extensionKey (L : StdLib) (filename : GoString) : GoString :=
  match strings.ToLower L (filepath.Ext L filename) with
  | '.' :: rest => rest
  | ext => ext

/-- The accepted formats in the words of the specification: the configured value lowercased,
split on commas, each element trimmed. -/
def spec_acceptedFormats (L : StdLib) (supportedFormats : GoString) : List GoString :=
  (strings.Split (strings.ToLower L supportedFormats) ',').map strings.TrimSpace

/-- A plugin whose host returns the given configuration and stores no files. -/
def pluginWith (config : configuration) : Plugin :=
  ⟨⟨some config, fun _ => none, fun _ => none, fun _ _ _ => none⟩⟩

/-- A plugin whose host fails to load the configuration. -/
def pluginUnconfigured : Plugin :=
  ⟨⟨none, fun _ => none, fun _ => none, fun _ _ _ => none⟩⟩

theorem loop_eq_true_iff (ext : GoString) (formats : List GoString) :
    isSupportedVideoFormat.loop ext formats = true ↔ ext ∈ formats.map strings.TrimSpace := by
  induction formats with
  | nil => simp [isSupportedVideoFormat.loop]
  | cons format rest ih =>
    by_cases h : strings.TrimSpace format = ext
    · simp [isSupportedVideoFormat.loop, h]
    · have h2 : ¬ ext = strings.TrimSpace format := fun e => h e.symm
      simp [isSupportedVideoFormat.loop, h, h2, ih]

theorem strip_eq_spec (ext : GoString) :
    (if ext ≠ [] ∧ ext.head? = some '.' then ext.drop 1 else ext)
      = (match ext with
        | '.' :: rest => rest
        | e => e) := by
  cases ext with
  | nil => simp
  | cons c cs =>
    by_cases h : c = '.'
    · subst h; simp
    · simp [h]

theorem isSupportedVideoFormat_eq_loop (L : StdLib) (p : Plugin) (filename : GoString) :
    isSupportedVideoFormat L p filename
      = isSupportedVideoFormat.loop (spec_extensionKey L filename)
          (strings.Split (strings.ToLower L (getConfiguration p).SupportedFormats) ',') := by
  unfold isSupportedVideoFormat spec_extensionKey
  simp only [strip_eq_spec]

/-- C1: `isSupportedVideoFormat` answers true exactly when the lowercased extension of the
file name, without its leading dot, equals one of the elements obtained by lowercasing
`SupportedFormats`, splitting it on commas and trimming each element; `clip.mp4` is eligible
against `mp4,mov` and `clip.txt` is not. -/
theorem isSupportedVideoFormat_iff_spec :
    (∀ (L : StdLib) (p : Plugin) (filename : GoString),
      isSupportedVideoFormat L p filename = true ↔
        ∃ format ∈ spec_acceptedFormats L (getConfiguration p).SupportedFormats,
          format = spec_extensionKey L filename)
    ∧ isSupportedVideoFormat unixLib (pluginWith ⟨true, "mp4,mov".toList, 1, 0⟩)
        "clip.mp4".toList = true
    ∧ isSupportedVideoFormat unixLib (pluginWith ⟨true, "mp4,mov".toList, 1, 0⟩)
        "clip.txt".toList = false := by
  refine ⟨?_, by decide, by decide⟩
  intro L p filename
  rw [isSupportedVideoFormat_eq_loop, loop_eq_true_iff]
  unfold spec_acceptedFormats
  constructor
  · intro h
    exact ⟨_, h, rfl⟩
  · rintro ⟨format, hmem, rfl⟩
    exact hmem

/-- C7: a file name without extension is reported as a supported video format as soon as the
configured list has an empty element: the empty string, a trailing comma, or an element of
white space only; so is a name whose extension is the bare dot. -/
theorem isSupportedVideoFormat_no_extension_accepted :
    filepath.Ext unixLib "Makefile".toList = []
    ∧ isSupportedVideoFormat unixLib (pluginWith ⟨true, [], 100, 0⟩) "Makefile".toList = true
    ∧ isSupportedVideoFormat unixLib (pluginWith ⟨true, "mp4,".toList, 100, 0⟩)
        "Makefile".toList = true
    ∧ isSupportedVideoFormat unixLib (pluginWith ⟨true, "mp4, ,mov".toList, 100, 0⟩)
        "Makefile".toList = true
    ∧ filepath.Ext unixLib "clip.".toList = ".".toList
    ∧ isSupportedVideoFormat unixLib (pluginWith ⟨true, "mp4,,mov".toList, 100, 0⟩)
        "clip.".toList = true := by
  decide

theorem scan_map (L : StdLib)
    (hdot : ∀ c, L.toLowerRune c = '.' ↔ c = '.')
    (hsep : ∀ c, L.isPathSeparator (L.toLowerRune c) = L.isPathSeparator c)
    (rev acc : GoString) :
    filepath.Ext.scan L (rev.map L.toLowerRune) (acc.map L.toLowerRune)
      = (filepath.Ext.scan L rev acc).map L.toLowerRune := by
  induction rev generalizing acc with
  | nil => simp [filepath.Ext.scan]
  | cons c rest ih =>
    simp only [List.map_cons, filepath.Ext.scan, hsep]
    by_cases hs : L.isPathSeparator c = true
    · simp [hs]
    · by_cases hd : c = '.'
      · subst hd
        have hd2 : L.toLowerRune '.' = '.' := (hdot '.').2 rfl
        simp [hs, hd2]
      · have hd2 : ¬ L.toLowerRune c = '.' := fun e => hd ((hdot c).1 e)
        simp only [hs, hd, hd2, if_false]
        have := ih (c :: acc)
        simpa using this

theorem Ext_ToLower (L : StdLib)
    (hdot : ∀ c, L.toLowerRune c = '.' ↔ c = '.')
    (hsep : ∀ c, L.isPathSeparator (L.toLowerRune c) = L.isPathSeparator c)
    (path : GoString) :
    filepath.Ext L (strings.ToLower L path) = strings.ToLower L (filepath.Ext L path) := by
  unfold filepath.Ext strings.ToLower
  have := scan_map L hdot hsep path.reverse []
  simpa [List.map_reverse] using this

theorem asciiLowerRune_dot (c : Char) : asciiLowerRune c = '.' ↔ c = '.' := by
  unfold asciiLowerRune
  by_cases h : 65 ≤ c.toNat ∧ c.toNat ≤ 90
  · rw [if_pos h]
    obtain ⟨h1, h2⟩ := h
    have hc : c = Char.ofNat c.toNat := (Char.ofNat_toNat c).symm
    generalize c.toNat = n at *
    subst hc
    interval_cases n <;> decide
  · rw [if_neg h]

theorem asciiLowerRune_sep (c : Char) :
    unixLib.isPathSeparator (unixLib.toLowerRune c) = unixLib.isPathSeparator c := by
  show (asciiLowerRune c == '/') = (c == '/')
  unfold asciiLowerRune
  by_cases h : 65 ≤ c.toNat ∧ c.toNat ≤ 90
  · rw [if_pos h]
    obtain ⟨h1, h2⟩ := h
    have hc : c = Char.ofNat c.toNat := (Char.ofNat_toNat c).symm
    generalize c.toNat = n at *
    subst hc
    interval_cases n <;> decide
  · rw [if_neg h]

/-- C9: eligibility does not depend on letter case. When the case table leaves the dot and
the path separators alone (no other rune is lowered to the dot, and lowering does not change
whether a rune is a separator), two file names with the same lowercase form and two
`SupportedFormats` values with the same lowercase form get the same answer, because taking
the extension commutes with lowercasing. -/
theorem isSupportedVideoFormat_case_insensitive (L : StdLib)
    (hdot : ∀ c, L.toLowerRune c = '.' ↔ c = '.')
    (hsep : ∀ c, L.isPathSeparator (L.toLowerRune c) = L.isPathSeparator c)
    (p₁ p₂ : Plugin) (name₁ name₂ : GoString)
    (hname : strings.ToLower L name₁ = strings.ToLower L name₂)
    (hformats : strings.ToLower L (getConfiguration p₁).SupportedFormats
      = strings.ToLower L (getConfiguration p₂).SupportedFormats) :
    (∀ path, filepath.Ext L (strings.ToLower L path)
        = strings.ToLower L (filepath.Ext L path))
    ∧ isSupportedVideoFormat L p₁ name₁ = isSupportedVideoFormat L p₂ name₂ := by
  refine ⟨Ext_ToLower L hdot hsep, ?_⟩
  have hext : strings.ToLower L (filepath.Ext L name₁)
      = strings.ToLower L (filepath.Ext L name₂) := by
    rw [← Ext_ToLower L hdot hsep, ← Ext_ToLower L hdot hsep, hname]
  unfold isSupportedVideoFormat
  simp only [hext, hformats]

/-- C9 at `clip.MP4` against `mp4,mov` and `clip.mp4` against `MP4,Mov`; the answer is also
the same against `MP4, Mov`, whose elements are trimmed. -/
theorem isSupportedVideoFormat_case_insensitive_witness :
    isSupportedVideoFormat unixLib (pluginWith ⟨true, "mp4,mov".toList, 1, 0⟩)
        "clip.MP4".toList
      = isSupportedVideoFormat unixLib (pluginWith ⟨true, "MP4,Mov".toList, 1, 0⟩)
        "clip.mp4".toList
    ∧ isSupportedVideoFormat unixLib (pluginWith ⟨true, "mp4,mov".toList, 1, 0⟩)
        "clip.MP4".toList = true
    ∧ isSupportedVideoFormat unixLib (pluginWith ⟨true, "mp4,mov".toList, 1, 0⟩)
        "clip.mp4".toList
      = isSupportedVideoFormat unixLib (pluginWith ⟨true, "MP4, Mov".toList, 1, 0⟩)
        "clip.mp4".toList :=
  ⟨(isSupportedVideoFormat_case_insensitive unixLib asciiLowerRune_dot asciiLowerRune_sep
      (pluginWith ⟨true, "mp4,mov".toList, 1, 0⟩) (pluginWith ⟨true, "MP4,Mov".toList, 1, 0⟩)
      "clip.MP4".toList "clip.mp4".toList (by decide) (by decide)).2, by decide, by decide⟩

/-! ## The upload hook: `FileWillBeUploaded` -/

/-- The size limit compared against `info.Size`: `int64(config.MaxFileSize*1024*1024)`. -/
def sizeLimit (p : Plugin) : Int :=
  wrapInt64 ((getConfiguration p).MaxFileSize * 1024 * 1024)

/-- The call returned a rejection reason that is not empty. -/
def UploadResult.rejected (r : UploadResult) : Bool :=
  match r.ret with
  | some (_ :: _) => true
  | _ => false

theorem Copy_written (dst : Writer) (src : Reader) (h : (io.Copy dst src).2 = false) :
    (io.Copy dst src).1.written = dst.written ++ src.data := by
  unfold io.Copy at h ⊢
  cases hc : dst.capacity with
  | none => simp
  | some k =>
    simp only [hc] at h ⊢
    by_cases hk : src.data.length ≤ k
    · simp [hk]
    · simp [hk] at h

theorem FileWillBeUploaded_accept_fields (L : StdLib) (p : Plugin) (info : FileInfo)
    (file : Reader) (output : Writer)
    (helig : isSupportedVideoFormat L p info.Name = true)
    (hsize : ¬ info.Size > sizeLimit p)
    (hcopy : (io.Copy output file).2 = false) :
    (FileWillBeUploaded L p info file output).output = (io.Copy output file).1
    ∧ (FileWillBeUploaded L p info file output).info.Name = info.Name
    ∧ (FileWillBeUploaded L p info file output).info.Size = info.Size
    ∧ (FileWillBeUploaded L p info file output).info.Id = info.Id
    ∧ (FileWillBeUploaded L p info file output).info.Extension = info.Extension := by
  unfold sizeLimit at hsize
  unfold FileWillBeUploaded
  simp only [helig, hsize, hcopy, Bool.not_true, if_false, Bool.false_eq_true]
  by_cases hm : L.TypeByExtension (filepath.Ext L info.Name) = []
  · simp only [hm, if_true]
    cases sliceFrom1 (filepath.Ext L info.Name) <;> simp
  · simp only [hm, if_false]
    simp

/-- C3: the upload hook leaves alone what it does not accept. For a file that is not
eligible it returns the metadata unchanged with an empty reason and the sink untouched; for
an eligible file over the size limit it returns the metadata unchanged and the sink
untouched; for an eligible file within the limit whose copy succeeds the sink has received
exactly the bytes of the input, and name, size, id and extension are unchanged. -/
theorem FileWillBeUploaded_frame (L : StdLib) (p : Plugin) (info : FileInfo)
    (file : Reader) (output : Writer) :
    (isSupportedVideoFormat L p info.Name = false →
      FileWillBeUploaded L p info file output = ⟨info, output, some []⟩)
    ∧ (isSupportedVideoFormat L p info.Name = true → info.Size > sizeLimit p →
      (FileWillBeUploaded L p info file output).info = info
      ∧ (FileWillBeUploaded L p info file output).output = output
      ∧ (FileWillBeUploaded L p info file output).ret ≠ none)
    ∧ (isSupportedVideoFormat L p info.Name = true → ¬ info.Size > sizeLimit p →
      (io.Copy output file).2 = false →
      (FileWillBeUploaded L p info file output).output.written = output.written ++ file.data
      ∧ (FileWillBeUploaded L p info file output).info.Name = info.Name
      ∧ (FileWillBeUploaded L p info file output).info.Size = info.Size
      ∧ (FileWillBeUploaded L p info file output).info.Id = info.Id
      ∧ (FileWillBeUploaded L p info file output).info.Extension = info.Extension) := by
  refine ⟨?_, ?_, ?_⟩
  · intro h
    simp [FileWillBeUploaded, h]
  · intro h hsize
    unfold sizeLimit at hsize
    simp [FileWillBeUploaded, h, hsize]
  · intro h hsize hcopy
    obtain ⟨h1, h2⟩ := FileWillBeUploaded_accept_fields L p info file output h hsize hcopy
    exact ⟨by rw [h1, Copy_written output file hcopy], h2⟩

/-- C3 at three uploads: a text file, an oversized video, and a video that is copied. -/
theorem FileWillBeUploaded_frame_witness :
    FileWillBeUploaded unixLib (pluginWith ⟨true, "mp4,mov".toList, 1, 0⟩)
        ⟨"f1".toList, "notes.txt".toList, "txt".toList, 5000000, []⟩ ⟨[1, 2, 3], false⟩
        ⟨[9], none⟩
      = ⟨⟨"f1".toList, "notes.txt".toList, "txt".toList, 5000000, []⟩, ⟨[9], none⟩, some []⟩
    ∧ (FileWillBeUploaded unixLib (pluginWith ⟨true, "mp4,mov".toList, 1, 0⟩)
        ⟨"f2".toList, "clip.mp4".toList, "mp4".toList, 1048577, []⟩ ⟨[1, 2, 3], false⟩
        ⟨[9], none⟩).output = ⟨[9], none⟩
    ∧ (FileWillBeUploaded unixLib (pluginWith ⟨true, "mp4,mov".toList, 1, 0⟩)
        ⟨"f3".toList, "clip.mp4".toList, "mp4".toList, 3, []⟩ ⟨[1, 2, 3], false⟩
        ⟨[9], none⟩).output.written = [9] ++ [1, 2, 3] :=
  ⟨(FileWillBeUploaded_frame unixLib (pluginWith ⟨true, "mp4,mov".toList, 1, 0⟩)
      ⟨"f1".toList, "notes.txt".toList, "txt".toList, 5000000, []⟩ ⟨[1, 2, 3], false⟩
      ⟨[9], none⟩).1 (by decide),
   ((FileWillBeUploaded_frame unixLib (pluginWith ⟨true, "mp4,mov".toList, 1, 0⟩)
      ⟨"f2".toList, "clip.mp4".toList, "mp4".toList, 1048577, []⟩ ⟨[1, 2, 3], false⟩
      ⟨[9], none⟩).2.1 (by decide) (by decide)).2.1,
   ((FileWillBeUploaded_frame unixLib (pluginWith ⟨true, "mp4,mov".toList, 1, 0⟩)
      ⟨"f3".toList, "clip.mp4".toList, "mp4".toList, 3, []⟩ ⟨[1, 2, 3], false⟩
      ⟨[9], none⟩).2.2 (by decide) (by decide) (by decide)).1⟩

/-- C2 as stated fails: an eligible file within the size limit whose copy fails is answered
with a rejection reason that is not empty. -/
theorem FileWillBeUploaded_rejects_within_limit :
    isSupportedVideoFormat unixLib (pluginWith ⟨true, "mp4,mov".toList, 1, 0⟩)
        "clip.mp4".toList = true
    ∧ ¬ ((FileWillBeUploaded unixLib (pluginWith ⟨true, "mp4,mov".toList, 1, 0⟩)
          ⟨"f1".toList, "clip.mp4".toList, "mp4".toList, 3, []⟩ ⟨[1, 2, 3], true⟩
          ⟨[], none⟩).rejected = true
        ↔ (3 : Int) > sizeLimit (pluginWith ⟨true, "mp4,mov".toList, 1, 0⟩)) := by
  decide

theorem wrapInt64_small (m : Int) (h0 : 0 ≤ m) (h1 : m < 8796093022208) :
    wrapInt64 (m * 1024 * 1024) = m * 1048576 := by
  unfold wrapInt64
  omega

/-- C2, amended: for an eligible file the hook returns a rejection reason that is not empty
exactly when `info.Size` exceeds `int64(MaxFileSize*1024*1024)` or the copy to the sink
fails. A file of exactly the limit whose copy succeeds and whose name has an extension is
accepted with an empty reason; a file one byte larger is rejected and nothing is written.
For a megabyte count from 0 up to 2^43 - 1 the limit is the product without wrap-around. -/
theorem FileWillBeUploaded_rejected_iff (L : StdLib) (p : Plugin) (info : FileInfo)
    (file : Reader) (output : Writer)
    (helig : isSupportedVideoFormat L p info.Name = true) :
    ((FileWillBeUploaded L p info file output).rejected = true ↔
      (info.Size > sizeLimit p ∨ (io.Copy output file).2 = true))
    ∧ (info.Size = sizeLimit p → (io.Copy output file).2 = false →
        filepath.Ext L info.Name ≠ [] →
        (FileWillBeUploaded L p info file output).ret = some [])
    ∧ (info.Size = sizeLimit p + 1 →
        (FileWillBeUploaded L p info file output).rejected = true
        ∧ (FileWillBeUploaded L p info file output).output = output)
    ∧ (0 ≤ (getConfiguration p).MaxFileSize → (getConfiguration p).MaxFileSize < 8796093022208 →
        sizeLimit p = (getConfiguration p).MaxFileSize * 1048576) := by
  refine ⟨?_, ?_, ?_, ?_⟩
  · by_cases hsize : info.Size > sizeLimit p
    · have hsize2 := hsize
      unfold sizeLimit at hsize2
      simp [FileWillBeUploaded, helig, hsize2, hsize, UploadResult.rejected]
    · have hsize2 := hsize
      unfold sizeLimit at hsize2
      by_cases hcopy : (io.Copy output file).2 = true
      · simp [FileWillBeUploaded, helig, hsize2, hsize, hcopy, UploadResult.rejected]
      · simp only [hsize, hcopy, or_self, iff_false]
        unfold FileWillBeUploaded UploadResult.rejected
        simp only [helig, hsize2, hcopy, Bool.not_true, if_false, Bool.false_eq_true]
        by_cases hm : L.TypeByExtension (filepath.Ext L info.Name) = []
        · simp only [hm, if_true]
          cases sliceFrom1 (filepath.Ext L info.Name) <;> simp
        · simp only [hm, if_false]
          simp
  · intro hsize hcopy hext
    have hsize2 : ¬ info.Size > wrapInt64 ((getConfiguration p).MaxFileSize * 1024 * 1024) := by
      unfold sizeLimit at hsize
      omega
    unfold FileWillBeUploaded
    simp only [helig, hsize2, hcopy, Bool.not_true, if_false, Bool.false_eq_true]
    by_cases hm : L.TypeByExtension (filepath.Ext L info.Name) = []
    · simp only [hm, if_true]
      cases hx : filepath.Ext L info.Name with
      | nil => exact absurd hx hext
      | cons c rest => simp [sliceFrom1]
    · simp only [hm, if_false]
  · intro hsize
    have hsize2 : info.Size > wrapInt64 ((getConfiguration p).MaxFileSize * 1024 * 1024) := by
      unfold sizeLimit at hsize
      omega
    simp [FileWillBeUploaded, helig, hsize2, UploadResult.rejected]
  · intro h0 h1
    exact wrapInt64_small _ h0 h1

/-- C2, amended, at `clip.mp4` with a limit of one megabyte: 1048576 bytes are accepted,
1048577 bytes are rejected. -/
theorem FileWillBeUploaded_rejected_iff_witness :
    (FileWillBeUploaded unixLib (pluginWith ⟨true, "mp4,mov".toList, 1, 0⟩)
        ⟨"f1".toList, "clip.mp4".toList, "mp4".toList, 1048576, []⟩ ⟨[1, 2, 3], false⟩
        ⟨[], none⟩).ret = some []
    ∧ (FileWillBeUploaded unixLib (pluginWith ⟨true, "mp4,mov".toList, 1, 0⟩)
        ⟨"f1".toList, "clip.mp4".toList, "mp4".toList, 1048577, []⟩ ⟨[1, 2, 3], false⟩
        ⟨[], none⟩).rejected = true :=
  ⟨(FileWillBeUploaded_rejected_iff unixLib (pluginWith ⟨true, "mp4,mov".toList, 1, 0⟩)
      ⟨"f1".toList, "clip.mp4".toList, "mp4".toList, 1048576, []⟩ ⟨[1, 2, 3], false⟩
      ⟨[], none⟩ (by decide)).2.1 (by decide) (by decide) (by decide),
   ((FileWillBeUploaded_rejected_iff unixLib (pluginWith ⟨true, "mp4,mov".toList, 1, 0⟩)
      ⟨"f1".toList, "clip.mp4".toList, "mp4".toList, 1048577, []⟩ ⟨[1, 2, 3], false⟩
      ⟨[], none⟩ (by decide)).2.2.1 (by decide)).1⟩

/-- C8: with the zero-valued configuration a file name without extension is reported as a
supported video format, and its upload is rejected for its size as soon as it has one byte. -/
theorem zero_configuration_rejects_upload :
    getConfiguration pluginUnconfigured = configuration.zero
    ∧ isSupportedVideoFormat unixLib pluginUnconfigured "Makefile".toList = true
    ∧ (FileWillBeUploaded unixLib pluginUnconfigured
        ⟨"f1".toList, "Makefile".toList, [], 1, []⟩ ⟨[7], false⟩ ⟨[], none⟩).ret
      = some "Размер видео файла превышает максимально допустимый".toList
    ∧ (FileWillBeUploaded unixLib pluginUnconfigured
        ⟨"f1".toList, "Makefile".toList, [], 1, []⟩ ⟨[7], false⟩ ⟨[], none⟩).rejected = true :=
  ⟨rfl, by decide, by decide, by decide⟩

/-- C10: an eligible file need not have an extension. With `SupportedFormats = "mp4,"` the
name `Makefile` is eligible, its ten bytes are within the limit and are copied, the MIME
lookup of the empty extension is empty, and the slice `filepath.Ext(info.Name)[1:]` of the
empty string is out of range: the hook ends in a run-time panic instead of returning. -/
theorem FileWillBeUploaded_panics_without_extension :
    isSupportedVideoFormat unixLib (pluginWith ⟨true, "mp4,".toList, 100, 0⟩)
        "Makefile".toList = true
    ∧ filepath.Ext unixLib "Makefile".toList = []
    ∧ sliceFrom1 (filepath.Ext unixLib "Makefile".toList) = none
    ∧ (FileWillBeUploaded unixLib (pluginWith ⟨true, "mp4,".toList, 100, 0⟩)
        ⟨"f1".toList, "Makefile".toList, [], 10, []⟩ ⟨[1, 2, 3, 4, 5, 6, 7, 8, 9, 10], false⟩
        ⟨[], none⟩).ret = none
    ∧ (FileWillBeUploaded unixLib (pluginWith ⟨true, "mp4,".toList, 100, 0⟩)
        ⟨"f1".toList, "Makefile".toList, [], 10, []⟩ ⟨[1, 2, 3, 4, 5, 6, 7, 8, 9, 10], false⟩
        ⟨[], none⟩).output.written = [1, 2, 3, 4, 5, 6, 7, 8, 9, 10] := by
  decide

/-! ## The post hook: `MessageWillBePosted` -/

/-- The attachments for which a preview job is launched, in the words of the specification:
the metadata lookup succeeds and the name is eligible. -/
def spec_launches (L : StdLib) (p : Plugin) (fileId : GoString) : Bool :=
  match p.API.GetFileInfo fileId with
  | some fileInfo => isSupportedVideoFormat L p fileInfo.Name
  | none => false

/-- The job launched for one attachment, if any. -/
def jobFor (L : StdLib) (p : Plugin) (fileId : GoString) : Option Job :=
  match p.API.GetFileInfo fileId with
  | some fileInfo =>
    if isSupportedVideoFormat L p fileInfo.Name then some ⟨fileId, fileInfo⟩ else none
  | none => none

/-- The key `"has_video"`. -/
def hasVideoKey : GoString := "has_video".toList

theorem MessageWillBePosted_loop_eq (L : StdLib) (p : Plugin) (ids : List GoString)
    (hasVideo : Bool) (jobs : List Job) :
    MessageWillBePosted.loop L p ids hasVideo jobs
      = (hasVideo || !(ids.filterMap (jobFor L p)).isEmpty,
          jobs ++ ids.filterMap (jobFor L p)) := by
  induction ids generalizing hasVideo jobs with
  | nil => simp [MessageWillBePosted.loop]
  | cons fileId rest ih =>
    unfold MessageWillBePosted.loop
    cases hget : p.API.GetFileInfo fileId with
    | none => simp [ih, jobFor, hget, List.filterMap_cons]
    | some fileInfo =>
      by_cases helig : isSupportedVideoFormat L p fileInfo.Name = true
      · simp [ih, jobFor, hget, helig, List.filterMap_cons]
      · simp [ih, jobFor, hget, helig, List.filterMap_cons]

theorem filterMap_jobFor_fileId (L : StdLib) (p : Plugin) (ids : List GoString) :
    (ids.filterMap (jobFor L p)).map Job.fileId = ids.filter (spec_launches L p) := by
  induction ids with
  | nil => simp
  | cons fileId rest ih =>
    cases hget : p.API.GetFileInfo fileId with
    | none => simp [List.filterMap_cons, List.filter_cons, jobFor, spec_launches, hget, ih]
    | some fileInfo =>
      by_cases helig : isSupportedVideoFormat L p fileInfo.Name = true
      · simp [List.filterMap_cons, List.filter_cons, jobFor, spec_launches, hget, helig, ih]
      · simp [List.filterMap_cons, List.filter_cons, jobFor, spec_launches, hget, helig, ih]

theorem filterMap_jobFor_info (L : StdLib) (p : Plugin) (ids : List GoString) (j : Job)
    (hj : j ∈ ids.filterMap (jobFor L p)) :
    p.API.GetFileInfo j.fileId = some j.fileInfo
    ∧ isSupportedVideoFormat L p j.fileInfo.Name = true := by
  rw [List.mem_filterMap] at hj
  obtain ⟨fileId, _, hjob⟩ := hj
  unfold jobFor at hjob
  cases hget : p.API.GetFileInfo fileId with
  | none => simp [hget] at hjob
  | some fileInfo =>
    by_cases helig : isSupportedVideoFormat L p fileInfo.Name = true
    · simp [hget, helig] at hjob
      subst hjob
      exact ⟨hget, helig⟩
    · simp [hget, helig] at hjob

/-- A host with preview enabled for `mp4,mov` that stores one attachment `f1` under the
given name. -/
def pluginStoring (name : GoString) : Plugin :=
  ⟨⟨some ⟨true, "mp4,mov".toList, 100, 0⟩,
    fun fileId => if fileId = "f1".toList then some ⟨"f1".toList, name, [], 10, []⟩ else none,
    fun fileId => if fileId = "f1".toList then some [1, 2, 3] else none,
    fun _ _ _ => some ⟨"p1".toList, "preview".toList, "jpg".toList, 2, []⟩⟩⟩

/-- A post with the attachment `f1` and the given annotations. -/
def postWith (props : Option (GoString → Option PropValue)) : Post :=
  ⟨"post1".toList, "user1".toList, "channel1".toList, "hello".toList, ["f1".toList], props⟩

/-- C4 as stated fails: a post that already carries `has_video = true` and whose only
attachment is a text file comes back with `has_video == true` although no job is launched. -/
theorem MessageWillBePosted_has_video_without_job :
    (postWith (some (fun key => if key = hasVideoKey then some (PropValue.bool true) else none))).FileIds
        ≠ []
    ∧ (getConfiguration (pluginStoring "notes.txt".toList)).EnableVideoPreview = true
    ∧ (MessageWillBePosted unixLib (pluginStoring "notes.txt".toList)
        (postWith (some (fun key =>
          if key = hasVideoKey then some (PropValue.bool true) else none)))).jobs = []
    ∧ (MessageWillBePosted unixLib (pluginStoring "notes.txt".toList)
        (postWith (some (fun key =>
          if key = hasVideoKey then some (PropValue.bool true) else none)))).post.prop hasVideoKey
      = some (PropValue.bool true) := by
  decide

/-- C4, amended: `MessageWillBePosted` always returns an empty rejection reason. With no
attachments or with preview disabled the post is returned unchanged and no job is launched.
Otherwise the launched jobs are, in order and with multiplicity, the ids of `post.FileIds`
whose lookup succeeds and whose name is eligible, each with the metadata looked up; the
returned post has `has_video == true` exactly when a job was launched or the submitted post
already had it; every other annotation and every other field is unchanged (when no job is
launched the whole post is). -/
theorem MessageWillBePosted_spec (L : StdLib) (p : Plugin) (post : Post) :
    (MessageWillBePosted L p post).reason = []
    ∧ ((post.FileIds = [] ∨ (getConfiguration p).EnableVideoPreview = false) →
        (MessageWillBePosted L p post).post = post
        ∧ (MessageWillBePosted L p post).jobs = [])
    ∧ (post.FileIds ≠ [] → (getConfiguration p).EnableVideoPreview = true →
        (MessageWillBePosted L p post).jobs.map Job.fileId
          = post.FileIds.filter (spec_launches L p)
        ∧ (∀ j ∈ (MessageWillBePosted L p post).jobs,
            p.API.GetFileInfo j.fileId = some j.fileInfo)
        ∧ ((MessageWillBePosted L p post).post.prop hasVideoKey = some (PropValue.bool true) ↔
            ((MessageWillBePosted L p post).jobs ≠ []
              ∨ post.prop hasVideoKey = some (PropValue.bool true)))
        ∧ ((MessageWillBePosted L p post).jobs = [] → (MessageWillBePosted L p post).post = post)
        ∧ (∀ key, key ≠ hasVideoKey →
            (MessageWillBePosted L p post).post.prop key = post.prop key)
        ∧ (MessageWillBePosted L p post).post.Id = post.Id
        ∧ (MessageWillBePosted L p post).post.UserId = post.UserId
        ∧ (MessageWillBePosted L p post).post.ChannelId = post.ChannelId
        ∧ (MessageWillBePosted L p post).post.Message = post.Message
        ∧ (MessageWillBePosted L p post).post.FileIds = post.FileIds) := by
  refine ⟨?_, ?_, ?_⟩
  · unfold MessageWillBePosted
    simp only []
    split_ifs <;> rfl
  · rintro (h | h)
    · simp [MessageWillBePosted, h]
    · unfold MessageWillBePosted
      simp only []
      split_ifs <;> simp_all
  · intro hids hen
    have hlen : ¬ post.FileIds.length = 0 := by
      intro h
      exact hids (List.length_eq_zero.mp h)
    by_cases hjobs : post.FileIds.filterMap (jobFor L p) = []
    · have hres : MessageWillBePosted L p post = ⟨post, [], []⟩ := by
        simp [MessageWillBePosted, hlen, hen, MessageWillBePosted_loop_eq, hjobs]
      have hfilter := filterMap_jobFor_fileId L p post.FileIds
      rw [hjobs] at hfilter
      rw [hres]
      simp [← hfilter]
    · have hres : MessageWillBePosted L p post
          = ⟨{ post with Props := some (mapSet
              (match post.Props with
                | none => fun _ => none
                | some m => m) hasVideoKey (PropValue.bool true)) }, [],
              post.FileIds.filterMap (jobFor L p)⟩ := by
        simp [MessageWillBePosted, hlen, hen, MessageWillBePosted_loop_eq, hjobs, hasVideoKey]
      rw [hres]
      refine ⟨filterMap_jobFor_fileId L p post.FileIds,
        fun j hj => (filterMap_jobFor_info L p post.FileIds j hj).1, ?_, ?_, ?_,
        rfl, rfl, rfl, rfl, rfl⟩
      · simp [Post.prop, mapSet, hjobs]
      · intro h
        exact absurd h hjobs
      · intro key hkey
        cases hprops : post.Props <;> simp [Post.prop, mapSet, hkey, hprops]

/-- C4, amended, at a post with one eligible video attachment and preview enabled: the
returned post has `has_video == true` and exactly one job is launched, for that id. -/
theorem MessageWillBePosted_spec_witness :
    (MessageWillBePosted unixLib (pluginStoring "clip.mp4".toList) (postWith none)).post.prop
        hasVideoKey = some (PropValue.bool true)
    ∧ (MessageWillBePosted unixLib (pluginStoring "clip.mp4".toList) (postWith none)).jobs
      = [⟨"f1".toList, ⟨"f1".toList, "clip.mp4".toList, [], 10, []⟩⟩] :=
  ⟨((MessageWillBePosted_spec unixLib (pluginStoring "clip.mp4".toList) (postWith none)).2.2
      (by decide) (by decide)).2.2.1.2 (Or.inl (by decide)), by decide⟩

/-! ## The preview job: `generateVideoPreview` -/

/-- The input transient path, `video_<id>_<name>` in the temporary directory. -/
def inputPath (os : OS) (fileId : GoString) (fileInfo : FileInfo) : GoString :=
  os.Join os.TempDir ("video_".toList ++ fileId ++ "_".toList ++ fileInfo.Name)

/-- The output transient path, `preview_<id>.jpg` in the temporary directory. -/
def outputPath (os : OS) (fileId : GoString) : GoString :=
  os.Join os.TempDir ("preview_".toList ++ fileId ++ ".jpg".toList)

/-- The command line of the transcoder. -/
def ffmpegArgv (os : OS) (p : Plugin) (fileId : GoString) (fileInfo : FileInfo) :
    List GoString :=
  ["ffmpeg".toList, "-i".toList, inputPath os fileId fileInfo, "-ss".toList,
    formatInt (getConfiguration p).PreviewDuration, "-vframes".toList, "1".toList,
    "-q:v".toList, "2".toList, "-y".toList, outputPath os fileId]

/-- The filesystem the transcoder is started on, once `video` has been written to the input
path. -/
def fsBeforeRun (os : OS) (fileId : GoString) (fileInfo : FileInfo) (fs : FS)
    (video : Bytes) : FS :=
  (fs.write (inputPath os fileId fileInfo) []).write (inputPath os fileId fileInfo)
    (io.Copy ⟨[], os.writeCapacity⟩ ⟨video, false⟩).1.written

/-- The bytes read back from the output path when the fetch, the creation of the input file,
the write to it, the transcoder run and the read of the output all succeed; `none` as soon
as one of them fails. -/
def spec_previewData (os : OS) (p : Plugin) (fileId : GoString) (fileInfo : FileInfo)
    (fs : FS) : Option Bytes :=
  match p.API.GetFile fileId with
  | none => none
  | some video =>
    if os.createFails (inputPath os fileId fileInfo) then none
    else if (io.Copy ⟨[], os.writeCapacity⟩ ⟨video, false⟩).2 then none
    else if (os.Run (ffmpegArgv os p fileId fileInfo)
        (fsBeforeRun os fileId fileInfo fs video)).2 then
      readFile os (os.Run (ffmpegArgv os p fileId fileInfo)
        (fsBeforeRun os fileId fileInfo fs video)).1 (outputPath os fileId)
    else none

/-- The calls to the file storage of the host. -/
def Event.isStorage : Event → Bool
  | Event.GetFile _ => true
  | Event.UploadFile _ _ _ => true
  | _ => false

/-- The calls one run of the job makes, from a filesystem `fs`. -/
def jobEvents (os : OS) (p : Plugin) (fileId : GoString) (fileInfo : FileInfo) (fs : FS) :
    List Event :=
  (generateVideoPreview os p fileId fileInfo ⟨fs, []⟩).trace

/-- A Unix machine with `/tmp` as temporary directory, on which file operations succeed, and
the given transcoder. -/
def unixOS (run : List GoString → FS → FS × Bool) : OS :=
  ⟨"/tmp".toList, fun dir name => dir ++ "/".toList ++ name, fun _ => false, none, run,
    fun _ => false⟩

/-- A transcoder that writes the first bytes of a frame to its last argument and then exits
with status 1. -/
def transcoderFailsAfterWriting (argv : List GoString) (fs : FS) : FS × Bool :=
  (fs.write (argv.getLastD []) [255, 216], false)

/-- A transcoder that writes a frame to its last argument and exits with status 0. -/
def transcoderSucceeds (argv : List GoString) (fs : FS) : FS × Bool :=
  (fs.write (argv.getLastD []) [255, 216, 255, 217], true)

/-- The filesystem on which no path exists. -/
def emptyFS : FS := fun _ => none

/-- C5: the output transient file survives a failed transcoder run. Starting from a
filesystem on which neither transient path exists, with a transcoder that writes to the
output path and then exits with a non-zero status, the job returns with the input transient
file removed and `preview_f1.jpg` still present: its removal is deferred only after the
check of the transcoder's result. -/
theorem generateVideoPreview_leaves_output_file :
    emptyFS "/tmp/video_f1_clip.mp4".toList = none
    ∧ emptyFS "/tmp/preview_f1.jpg".toList = none
    ∧ inputPath (unixOS transcoderFailsAfterWriting) "f1".toList
        ⟨"f1".toList, "clip.mp4".toList, [], 10, []⟩ = "/tmp/video_f1_clip.mp4".toList
    ∧ outputPath (unixOS transcoderFailsAfterWriting) "f1".toList = "/tmp/preview_f1.jpg".toList
    ∧ (generateVideoPreview (unixOS transcoderFailsAfterWriting)
        (pluginStoring "clip.mp4".toList) "f1".toList
        ⟨"f1".toList, "clip.mp4".toList, [], 10, []⟩ ⟨emptyFS, []⟩).fs
          "/tmp/video_f1_clip.mp4".toList = none
    ∧ (generateVideoPreview (unixOS transcoderFailsAfterWriting)
        (pluginStoring "clip.mp4".toList) "f1".toList
        ⟨"f1".toList, "clip.mp4".toList, [], 10, []⟩ ⟨emptyFS, []⟩).fs
          "/tmp/preview_f1.jpg".toList = some [255, 216] := by
  decide

theorem events_isStorage (p : Plugin) :
    (getConfiguration.events p).filter Event.isStorage = [] := by
  unfold getConfiguration.events
  cases p.API.LoadPluginConfiguration <;> simp [Event.isStorage]

theorem events_no_Create (p : Plugin) (path : GoString) :
    Event.Create path ∉ getConfiguration.events p := by
  unfold getConfiguration.events
  cases p.API.LoadPluginConfiguration <;> simp

theorem events_no_ReadFile (p : Plugin) (path : GoString) :
    Event.ReadFile path ∉ getConfiguration.events p := by
  unfold getConfiguration.events
  cases p.API.LoadPluginConfiguration <;> simp

/-- C6: the storage calls of a preview job. The calls of a run extend the trace; among them
the calls to the file storage are one fetch of the source id followed by one store call when
the fetch, the creation of and the write to the input file, the transcoder run and the read
of the output all succeed, with the bytes read from the output path, `preview_<name>.jpg`
and `preview_<id>.jpg` as arguments, and by no store call otherwise. When the fetch fails no
file is created and the filesystem is unchanged; when the transcoder fails no file is read. -/
theorem generateVideoPreview_storage_calls (os : OS) (p : Plugin) (fileId : GoString)
    (fileInfo : FileInfo) (w : World) :
    (generateVideoPreview os p fileId fileInfo w).trace
      = w.trace ++ jobEvents os p fileId fileInfo w.fs
    ∧ (jobEvents os p fileId fileInfo w.fs).filter Event.isStorage
      = Event.GetFile fileId ::
        (match spec_previewData os p fileId fileInfo w.fs with
          | some data =>
            [Event.UploadFile data ("preview_".toList ++ fileInfo.Name ++ ".jpg".toList)
              ("preview_".toList ++ fileId ++ ".jpg".toList)]
          | none => [])
    ∧ (p.API.GetFile fileId = none →
        (∀ path, Event.Create path ∉ jobEvents os p fileId fileInfo w.fs)
        ∧ (generateVideoPreview os p fileId fileInfo w).fs = w.fs)
    ∧ (∀ video, p.API.GetFile fileId = some video →
        (os.Run (ffmpegArgv os p fileId fileInfo) (fsBeforeRun os fileId fileInfo w.fs video)).2
          = false →
        ∀ path, Event.ReadFile path ∉ jobEvents os p fileId fileInfo w.fs) := by
  unfold jobEvents spec_previewData generateVideoPreview fsBeforeRun ffmpegArgv inputPath
    outputPath
  cases hget : p.API.GetFile fileId with
  | none =>
    simp [World.log, events_isStorage, events_no_Create, Event.isStorage]
  | some video =>
    simp only []
    generalize os.Join os.TempDir ("video_".toList ++ fileId ++ "_".toList ++ fileInfo.Name)
      = inputFile
    generalize os.Join os.TempDir ("preview_".toList ++ fileId ++ ".jpg".toList) = outputFile
    generalize "preview_".toList ++ fileInfo.Name ++ ".jpg".toList = displayName
    generalize "preview_".toList ++ fileId ++ ".jpg".toList = storedName
    simp only [Option.some.injEq, forall_eq']
    by_cases hcreate : os.createFails inputFile = true
    · simp [hcreate, World.log, events_isStorage, events_no_ReadFile, Event.isStorage]
    · by_cases hcopy : (io.Copy ⟨[], os.writeCapacity⟩ ⟨video, false⟩).2 = true
      · simp [hcreate, hcopy, World.log, runDeferred, events_isStorage, events_no_ReadFile,
          Event.isStorage]
      · simp only [hcreate, hcopy, Bool.false_eq_true, if_false, World.log]
        generalize os.Run _ _ = ran
        by_cases hrun : ran.2 = true
        · simp only [hrun, Bool.not_true, Bool.false_eq_true, if_false, if_true]
          cases hread : readFile os ran.1 outputFile with
          | none =>
            simp [hread, World.log, runDeferred, events_isStorage, Event.isStorage]
          | some previewData =>
            cases hstore : p.API.UploadFile previewData displayName storedName with
            | none =>
              simp [hread, hstore, World.log, runDeferred, events_isStorage, Event.isStorage]
            | some saved =>
              simp [hread, hstore, World.log, runDeferred, events_isStorage, Event.isStorage]
        · simp [hrun, World.log, runDeferred, events_isStorage, events_no_ReadFile,
            Event.isStorage]

/-- C6 at a run on which every step succeeds, and at a run whose transcoder fails: the first
makes one fetch and one store call with the frame read back, the second reads no file. -/
theorem generateVideoPreview_storage_calls_witness :
    (jobEvents (unixOS transcoderSucceeds) (pluginStoring "clip.mp4".toList) "f1".toList
        ⟨"f1".toList, "clip.mp4".toList, [], 10, []⟩ emptyFS).filter Event.isStorage
      = [Event.GetFile "f1".toList,
          Event.UploadFile [255, 216, 255, 217] "preview_clip.mp4.jpg".toList
            "preview_f1.jpg".toList]
    ∧ Event.ReadFile "/tmp/preview_f1.jpg".toList ∉
        jobEvents (unixOS transcoderFailsAfterWriting) (pluginStoring "clip.mp4".toList)
          "f1".toList ⟨"f1".toList, "clip.mp4".toList, [], 10, []⟩ emptyFS :=
  ⟨(generateVideoPreview_storage_calls (unixOS transcoderSucceeds)
      (pluginStoring "clip.mp4".toList) "f1".toList
      ⟨"f1".toList, "clip.mp4".toList, [], 10, []⟩ ⟨emptyFS, []⟩).2.1.trans (by decide),
   (generateVideoPreview_storage_calls (unixOS transcoderFailsAfterWriting)
      (pluginStoring "clip.mp4".toList) "f1".toList
      ⟨"f1".toList, "clip.mp4".toList, [], 10, []⟩ ⟨emptyFS, []⟩).2.2.2 [1, 2, 3]
      (by decide) (by decide) "/tmp/preview_f1.jpg".toList⟩

end VideoPlugin
